import Mathlib

/-!
Verification of the job scheduling and execution subsystem of the `clari`
repository (`src/task_queue.py`, `src/storage.py`) against its
natural-language specification.

The Python code is shallowly embedded: the `Task` dataclass, the `Storage`
sqlite layer and the `TaskQueue` scheduler become Lean structures and pure
functions; Python exceptions become `Except`; timestamps become `Nat`;
the sqlite `tasks` table becomes a list of rows in rowid (insertion) order.
-/

set_option linter.unnecessarySeqFocus false

namespace Clari

/-- Job status strings used by `task_queue.py` (`'pending'`, `'running'`,
`'completed'`, `'failed'`), embedded as a closed enumeration. -/
inductive TStatus
  | pending
  | running
  | completed
  | failed
deriving DecidableEq, Repr

/-- The status string stored in the `status` column / json artifact. -/
def TStatus.toStr : TStatus → String
  | .pending => "pending"
  | .running => "running"
  | .completed => "completed"
  | .failed => "failed"

/-- A terminal status: `completed` or `failed`. -/
def TStatus.isTerminal : TStatus → Bool
  | .completed => true
  | .failed => true
  | _ => false

/-- Result payloads (`task.result : Dict`) are modelled as association
lists of strings; the scheduler treats them opaquely. -/
abbrev Dict := List (String × String)

/-- The `Task` dataclass of `task_queue.py`:
`id`, `type`, `input_path`, `status='pending'`, `created_at=datetime.now()`
(a dataclass default, evaluated once at class-definition time — see
`TaskQueue.add_task`), `result=None`, `priority=0`. -/
structure Task where
  id : String
  type : String
  input_path : String
  status : TStatus := .pending
  created_at : Nat := 0
  result : Option Dict := none
  priority : Int := 0
deriving DecidableEq, Repr

instance : Inhabited Task :=
  ⟨{ id := "", type := "", input_path := "" }⟩

/-- A row of the sqlite `tasks` table created by `Storage.init_db`:
`(id, type, input_path, status, created_at, result JSON, priority)`. -/
structure TaskRow where
  id : String
  type : String
  input_path : String
  status : String
  created_at : Nat
  result : Option String
  priority : Int
deriving DecidableEq, Repr

/-- Model of `json.dumps` on a result dict: an opaque textual encoding.
Only the fact that a non-null string is produced matters to the claims. -/
def dumps (d : Dict) : String :=
  String.intercalate ";" (d.map (fun kv => kv.1 ++ "=" ++ kv.2))

/-- The row written by `Storage.save_task`: note line 39 of `storage.py`,
`json.dumps(task.result) if task.result else None` — Python truthiness, so
both `None` and the empty dict serialize to SQL `NULL`. -/
def rowOf (t : Task) : TaskRow :=
  { id := t.id
    type := t.type
    input_path := t.input_path
    status := t.status.toStr
    created_at := t.created_at
    result :=
      match t.result with
      | none => none
      | some d => if d.isEmpty then none else some (dumps d)
    priority := t.priority }

/-- `Storage.save_task`: `INSERT OR REPLACE` keyed on `id`. Sqlite deletes
any existing row with this primary key and inserts the new row with a fresh
rowid, i.e. at the end of the scan order. -/
def Storage.save_task (rows : List TaskRow) (t : Task) : List TaskRow :=
  rows.filter (fun r => !(r.id == t.id)) ++ [rowOf t]

/-- The ordering used by `get_pending_tasks`: `ORDER BY priority DESC`. -/
def prioGe (a b : TaskRow) : Prop := b.priority ≤ a.priority

instance : DecidableRel prioGe := fun a b => Int.decLe b.priority a.priority

instance : IsTotal TaskRow prioGe := ⟨fun a b => le_total b.priority a.priority⟩

instance : IsTrans TaskRow prioGe := ⟨fun _ _ _ h h2 => le_trans h2 h⟩

/-- `Storage.get_pending_tasks`:
`SELECT * FROM tasks WHERE status='pending' ORDER BY priority DESC`.
Sql guarantees only the key ordering; the scan-plus-sort is modelled with
a concrete (insertion) sort over rows in rowid order. -/
def Storage.get_pending_tasks (rows : List TaskRow) : List TaskRow :=
  List.insertionSort prioGe (rows.filter (fun r => r.status == "pending"))

/-- Python exceptions surfaced by the embedded code. -/
inductive PyErr
  | attributeError (attr : String)
deriving DecidableEq, Repr

/-- `TaskQueue` state. `__init__` (lines 22–26 of `task_queue.py`) assigns
`self.tasks = []`, `self.client = OpenRouterClient()`, `self.running =
False` — and nothing else. In particular the attribute `self.storage`,
which `add_task` reads, is never assigned; the field is `Option`-valued
and an access when it is `none` raises `AttributeError`. -/
structure TaskQueue where
  tasks : List Task
  running : Bool
  storage : Option (List TaskRow)

/-- `TaskQueue.__init__`: fresh queue; `self.storage` is never assigned. -/
def TaskQueue.init : TaskQueue :=
  { tasks := [], running := false, storage := none }

/-- An external assignment `queue.storage = ...` (Python allows setting the
attribute from outside). No code in this repository performs it; it is the
hypothesis under which `add_task`'s body past line 44 becomes reachable. -/
def TaskQueue.attachStorage (q : TaskQueue) (rows : List TaskRow) : TaskQueue :=
  { q with storage := some rows }

/-- `TaskQueue.add_task(task_type, input_path, priority=0)` (lines 35–47):
mints `task_id = f"{task_type}_{len(self.tasks)}_{now}"` (a *fresh*
`datetime.now()` call, parameter `now`), constructs a `Task` whose
`created_at` is the dataclass default — the single `datetime.now()` value
evaluated once at class-definition time, parameter `classLoad` — then runs
`self.storage.save_task(task)` (raising `AttributeError` when the
attribute was never assigned), appends to `self.tasks`, and returns the id. -/
def TaskQueue.add_task (q : TaskQueue) (task_type : String) (input_path : String)
    (priority : Int) (classLoad : Nat) (now : Nat) :
    Except PyErr (TaskQueue × String) :=
  let task_id := task_type ++ "_" ++ toString q.tasks.length ++ "_" ++ toString now
  let task : Task :=
    { id := task_id, type := task_type, input_path := input_path,
      status := .pending, created_at := classLoad, result := none,
      priority := priority }
  match q.storage with
  | none => .error (.attributeError "storage")
  | some rows =>
      let q2 : TaskQueue :=
        { tasks := q.tasks ++ [task]
          running := q.running
          storage := some (Storage.save_task rows task) }
      .ok (q2, task_id)

/-- Embedding of Python `str.endswith`. -/
def endsWithPy (s suffix : String) : Bool :=
  List.isSuffixOf suffix.data s.data

/-- The watcher callback `CodeChangeHandler.on_modified` (lines 119–121):
for an event path ending in `.py`, call
`self.queue.add_task('code_improvement', Path(event.src_path), priority=5)`.
Nothing catches exceptions from `add_task`. -/
def CodeChangeHandler.on_modified (q : TaskQueue) (src_path : String)
    (classLoad : Nat) (now : Nat) : Except PyErr TaskQueue :=
  if endsWithPy src_path ".py" then
    (q.add_task "code_improvement" src_path 5 classLoad now).map (fun p => p.1)
  else
    .ok q

/-- One `add_task` call: kind, path, priority, and the per-call
`datetime.now()` value used for the id suffix. -/
structure EnqOp where
  task_type : String
  input_path : String
  priority : Int
  now : Nat

/-- A sequence of `add_task` calls against a queue. A call that raises
surfaces to the caller; the queue is left as it was and the next call
proceeds (the caller catches and continues). -/
def runEnqueues (classLoad : Nat) (q : TaskQueue) : List EnqOp → TaskQueue
  | [] => q
  | op :: ops =>
      match q.add_task op.task_type op.input_path op.priority classLoad op.now with
      | .ok (q2, _) => runEnqueues classLoad q2 ops
      | .error _ => runEnqueues classLoad q ops

/-- The external collaborators reached from `process_task`: the filesystem
read (`open(...).read()`) and the three `OpenRouterClient` calls. Each
either produces a value or raises (the error message). The Job Runner is
an external collaborator boundary per the spec. -/
structure Env where
  readFile : String → Except String String
  generate_code : String → Except String Dict
  suggest_tests : String → Except String Dict
  analyze_dependencies : String → Except String Dict

/-- The prompt built at lines 56–58 of `task_queue.py`. -/
def improvePrompt (code : String) : String :=
  "Improve this code:\n" ++ "```" ++ "python\n" ++ code ++ "\n" ++ "```"

/-- The dispatch-by-kind of `process_task` lines 53–64: the value assigned
to `task.result` (`some r`), or `none` when no branch matches the task
type (the `result` field is left unchanged), or the raised exception. -/
def runnerOutcome (env : Env) (t : Task) : Except String (Option Dict) :=
  if t.type == "code_improvement" then
    match env.readFile t.input_path with
    | .error e => .error e
    | .ok code => (env.generate_code (improvePrompt code)).map (fun r => some r)
  else if t.type == "test_generation" then
    match env.readFile t.input_path with
    | .error e => .error e
    | .ok code => (env.suggest_tests code).map (fun r => some r)
  else if t.type == "dependency_check" then
    (env.analyze_dependencies t.input_path).map (fun r => some r)
  else
    .ok none

/-- The json payload `_save_result` writes (lines 80–88). -/
structure Artifact where
  task_id : String
  type : String
  input_path : String
  status : String
  created_at : Nat
  result : Option Dict
deriving DecidableEq, Repr

/-- Observable write effects of the scheduler: a Durable Store write
(`storage.save_task`) or a Result Sink write (`_save_result`). -/
inductive Ev
  | storeWrite (row : TaskRow)
  | sinkWrite (file : String) (art : Artifact)
deriving DecidableEq, Repr

/-- Tests whether an effect is a Durable Store write. -/
def Ev.isStore : Ev → Bool
  | .storeWrite _ => true
  | .sinkWrite _ _ => false

/-- `TaskQueue._save_result` (lines 74–88): one artifact named
`results/{task.id}_result.json` holding the full record. -/
def save_result (t : Task) : Ev :=
  .sinkWrite ("results/" ++ t.id ++ "_result.json")
    { task_id := t.id, type := t.type, input_path := t.input_path,
      status := t.status.toStr, created_at := t.created_at,
      result := t.result }

/-- `TaskQueue.process_task` (lines 49–72): set status `running`; run the
kind-specific Job Runner; on success assign `result`, set status
`completed` and call `_save_result`; on a raised exception set status
`failed` and `result = {'error': str(e)}` (the bare `except` also logs —
no store write and no sink write happen on this path). The transient
`running` status is modelled separately by the small-step relation. -/
def process_task (env : Env) (t : Task) : Task × List Ev :=
  match runnerOutcome env t with
  | .ok ro =>
      let t1 : Task :=
        { t with
          status := .completed
          result := match ro with | some r => some r | none => t.result }
      (t1, [save_result t1])
  | .error e =>
      ({ t with status := .failed, result := some [("error", e)] }, [])

/-- Number of PENDING records in the in-memory collection. -/
def countPending (ts : List Task) : Nat :=
  ts.countP (fun t => t.status == .pending)

/-- The batch selected at lines 96–101:
`pending_tasks = [t for t in self.tasks if t.status == 'pending']` and
`batch = pending_tasks[:3]` — the first (up to) three PENDING tasks in
insertion order; `priority` is not consulted. -/
def selectBatch (ts : List Task) : List Task :=
  (ts.filter (fun t => t.status == .pending)).take 3

/-- One `asyncio.gather` round: process the first `budget` PENDING tasks
in place (list positions of all tasks are preserved, exactly as the Python
code mutates `Task` objects inside `self.tasks`), collecting their write
effects. Within a real batch the effects of distinct members interleave
arbitrarily; the claims only quantify over which effects occur per task,
so a fixed order is recorded. -/
def dispatch (env : Env) : Nat → List Task → List Task × List Ev
  | _, [] => ([], [])
  | 0, ts => (ts, [])
  | budget + 1, t :: rest =>
      if t.status = .pending then
        let p := process_task env t
        let d := dispatch env budget rest
        (p.1 :: d.1, p.2 ++ d.2)
      else
        let d := dispatch env (budget + 1) rest
        (t :: d.1, d.2)

/-- The `while` loop of `TaskQueue.run` (lines 90–108), fuelled: while
PENDING records remain, dispatch a batch of at most 3 and wait for it to
settle. Each round with a PENDING record terminalizes at least one, so
`countPending ts` rounds always suffice. -/
def runFuel (env : Env) : Nat → List Task → List Task × List Ev
  | 0, ts => (ts, [])
  | fuel + 1, ts =>
      if countPending ts = 0 then (ts, [])
      else
        let d := dispatch env 3 ts
        let k := runFuel env fuel d.1
        (k.1, d.2 ++ k.2)

/-- `TaskQueue.run`: the loop driven to completion. The `ProgressTracker`
summary value is not modelled: `progress_tracker.py` is absent from the
repository and no claim depends on the summary contents. -/
def run (env : Env) (ts : List Task) : List Task × List Ev :=
  runFuel env (countPending ts) ts

/-- The per-task outcome function: a PENDING task ends as `process_task`
leaves it; any other task is untouched by the loop. -/
def finishTask (env : Env) (t : Task) : Task :=
  if t.status = .pending then (process_task env t).1 else t

/-- A collaborator environment in which every call succeeds; the file
content returned for a path is the path itself, so runner calls can be
distinguished per input file. -/
def okEnv : Env :=
  { readFile := fun p => .ok p
    generate_code := fun _ => .ok [("text", "improved")]
    suggest_tests := fun _ => .ok [("text", "tests")]
    analyze_dependencies := fun _ => .ok [("deps", "none")] }

/-- A collaborator environment whose Job Runner raises on every
`code_improvement` job. -/
def failEnv : Env :=
  { okEnv with generate_code := fun _ => .error "boom" }

/-- A collaborator environment whose Job Runner raises exactly on the job
whose input file is `f0.py`, and behaves like `okEnv` elsewhere. -/
def envFailA : Env :=
  { okEnv with
    generate_code := fun s =>
      if s == improvePrompt "f0.py" then .error "boom"
      else .ok [("text", "improved")] }

/-- A concrete pending `code_improvement` job on `f{n}.py`. -/
def sampleTask (pr : Int) (n : Nat) : Task :=
  { id := "code_improvement_" ++ toString n ++ "_" ++ toString n
    type := "code_improvement"
    input_path := "f" ++ toString n ++ ".py"
    status := .pending
    created_at := 0
    result := none
    priority := pr }

/-- The five enqueue calls of the spec scenario: priorities
`[1, 5, 0, 5, 3]` in creation order. -/
def scenarioOps : List EnqOp :=
  [ { task_type := "code_improvement", input_path := "f0.py", priority := 1, now := 0 }
  , { task_type := "code_improvement", input_path := "f1.py", priority := 5, now := 1 }
  , { task_type := "code_improvement", input_path := "f2.py", priority := 0, now := 2 }
  , { task_type := "code_improvement", input_path := "f3.py", priority := 5, now := 3 }
  , { task_type := "code_improvement", input_path := "f4.py", priority := 3, now := 4 } ]

/-- The queue after the five scenario enqueues (storage attached so that
`add_task` can complete). -/
def scenarioQueue : TaskQueue :=
  runEnqueues 0 (TaskQueue.init.attachStorage []) scenarioOps

/-- Small-step view of `run()` for the concurrency claims. Only statuses
matter here. `stats` is the status of each task by list position,
`inflight` the index batch handed to `asyncio.gather` (if a batch is
currently being awaited), `done` the members of all settled batches.
The relation over-approximates the asyncio interleavings: each batch
member independently steps PENDING → RUNNING (first line of
`process_task`) and then RUNNING → terminal, in any order; the `gather`
join fires only once every member is terminal; a new batch is selected
(lines 96–101) only when no batch is in flight; concurrent `enqueue`
appends a PENDING record at any time. -/
structure RState where
  stats : List TStatus
  inflight : Option (List Nat)
  done : List Nat

/-- Status of task `i` (out-of-range positions read as PENDING, a
convention of the embedding only — they are never reachable indices). -/
def statusAt (s : RState) (i : Nat) : TStatus :=
  s.stats.getD i .pending

/-- Positions of the PENDING records, in insertion order — the
`[t for t in self.tasks if t.status == 'pending']` selection. -/
def pendingIdxs (l : List TStatus) : List Nat :=
  (List.range l.length).filter (fun i => l.getD i .pending == .pending)

/-- One scheduler event. `select` is `batch = pending_tasks[:3]`;
`start` is a batch member's `task.status = 'running'`; `finish` is its
terminal assignment; `join` is the `await asyncio.gather(...)` barrier
returning; `enqueue` is a concurrent `add_task` append. -/
inductive RStep : RState → RState → Prop
  | select (s : RState) (h : s.inflight = none) (hne : pendingIdxs s.stats ≠ []) :
      RStep s { stats := s.stats
                inflight := some ((pendingIdxs s.stats).take 3)
                done := s.done }
  | start (s : RState) (b : List Nat) (i : Nat) (h : s.inflight = some b)
      (hi : i ∈ b) (hp : statusAt s i = .pending) :
      RStep s { stats := s.stats.set i .running
                inflight := s.inflight
                done := s.done }
  | finish (s : RState) (b : List Nat) (i : Nat) (st : TStatus)
      (h : s.inflight = some b) (hi : i ∈ b) (hr : statusAt s i = .running)
      (hterm : st.isTerminal = true) :
      RStep s { stats := s.stats.set i st
                inflight := s.inflight
                done := s.done }
  | join (s : RState) (b : List Nat) (h : s.inflight = some b)
      (hall : ∀ i ∈ b, (statusAt s i).isTerminal = true) :
      RStep s { stats := s.stats, inflight := none, done := s.done ++ b }
  | enqueue (s : RState) :
      RStep s { stats := s.stats ++ [.pending]
                inflight := s.inflight
                done := s.done }

/-- States reachable during `run()`: initially no batch is in flight and
no record is RUNNING (records enter the queue as PENDING and leave a
previous run terminal). -/
inductive Reach : RState → Prop
  | init (stats : List TStatus) (h : ∀ st ∈ stats, st ≠ .running) :
      Reach { stats := stats, inflight := none, done := [] }
  | step {s s2 : RState} : Reach s → RStep s s2 → Reach s2

/-- The run-loop invariant: (1) with no batch in flight nothing is
RUNNING; (2) every RUNNING record belongs to the in-flight batch, which
has at most 3 distinct members; (3) every member of a settled batch is
terminal. -/
def Inv (s : RState) : Prop :=
  (s.inflight = none → ∀ i, statusAt s i ≠ .running) ∧
  (∀ b, s.inflight = some b →
    (∀ i, statusAt s i = .running → i ∈ b) ∧ b.length ≤ 3 ∧ b.Nodup) ∧
  (∀ i ∈ s.done, (statusAt s i).isTerminal = true)

/-- Number of records with status RUNNING. -/
def countRunning (l : List TStatus) : Nat :=
  l.countP (fun st => st == .running)

/-- A state with a full batch of three RUNNING jobs, reached by a batch
selection and three starts from four enqueued jobs. -/
def wFull : RState :=
  { stats := [.running, .running, .running, .pending]
    inflight := some [0, 1, 2]
    done := [] }

/-- The state after one full batch cycle (select, start, finish, join)
plus a concurrent enqueue: one COMPLETED record in `done`, one fresh
PENDING record, no batch in flight. -/
def vBarrier : RState :=
  { stats := [.completed, .pending], inflight := none, done := [0] }

/-- The state right after the second batch selection. -/
def vSecond : RState :=
  { stats := [.completed, .pending], inflight := some [1], done := [0] }

/-- Claim C1: every call to `add_task` on a queue as constructed by
`TaskQueue.__init__` raises `AttributeError` at the `self.storage` access
of line 44 — before the record is appended to the in-memory collection and
before an id is returned. The record therefore is neither persisted nor
queued, contradicting the claim that the record is constructed, persisted,
appended and its id returned, with a persistence failure leaving it queued
in memory. -/
theorem C1_add_task_raises_attribute_error (ty path : String) (prio : Int)
    (classLoad now : Nat) :
    TaskQueue.init.add_task ty path prio classLoad now =
      .error (.attributeError "storage") := rfl

/-- Claim C8: the `created_at` value of every record minted by `add_task`
is the single dataclass-default timestamp evaluated once at class
definition (`classLoad`), not the per-call time: two records created with
observably different `now` values carry the same `created_at`. -/
theorem C8_created_at_is_class_constant (classLoad now1 now2 : Nat) :
    (((TaskQueue.init.attachStorage []).add_task "code_improvement" "a.py" 0
        classLoad now1).bind
      (fun p => p.1.add_task "code_improvement" "b.py" 0 classLoad now2)).map
      (fun p => p.1.tasks.map (fun t => t.created_at)) =
    .ok [classLoad, classLoad] := rfl

/-- Claim C9: a modification event for `foo.py` does reach the enqueue call
(the path matches the managed `.py` type), but the synthesized
`add_task('code_improvement', path, priority=5)` raises `AttributeError`
on the never-assigned `self.storage`, so no PENDING record is created and
`pending()` on a fresh store stays empty. -/
theorem C9_watch_event_enqueue_raises (classLoad now : Nat) :
    endsWithPy "foo.py" ".py" = true ∧
    CodeChangeHandler.on_modified TaskQueue.init "foo.py" classLoad now =
      .error (.attributeError "storage") ∧
    Storage.get_pending_tasks [] = [] :=
  ⟨by decide, by rfl, rfl⟩

/-- Claim C10: `Storage.save_task` stores SQL `NULL` in the `result`
column for a falsy result — both `None` and the empty dict — and the
resulting rows are identical, so the two cases are indistinguishable in
the store. -/
theorem C10_falsy_result_stored_null (t : Task) (rows : List TaskRow) :
    (rowOf { t with result := none }).result = none ∧
    (rowOf { t with result := some [] }).result = none ∧
    Storage.save_task rows { t with result := some [] } =
      Storage.save_task rows { t with result := none } := by
  refine ⟨rfl, rfl, ?_⟩
  simp [Storage.save_task, rowOf]

/-- Writing a freshly minted pending record preserves the row invariant. -/
theorem save_task_rows_invariant (classLoad : Nat) (rows : List TaskRow)
    (t : Task) (hrows : ∀ r ∈ rows, r.status = "pending" ∧ r.created_at = classLoad)
    (hts : t.status = .pending) (htc : t.created_at = classLoad) :
    ∀ r ∈ Storage.save_task rows t,
      r.status = "pending" ∧ r.created_at = classLoad := by
  intro r hr
  unfold Storage.save_task at hr
  rcases List.mem_append.mp hr with hr1 | hr2
  · exact hrows r (List.mem_filter.mp hr1).1
  · rcases List.mem_singleton.mp hr2 with rfl
    refine ⟨?_, ?_⟩
    · simp [rowOf, hts, TStatus.toStr]
    · simpa [rowOf] using htc

/-- Every row the store accumulates under a sequence of `add_task` calls
has status `"pending"` and the class-constant `created_at`. -/
theorem runEnqueues_rows_invariant (classLoad : Nat) (ops : List EnqOp) :
    ∀ (q : TaskQueue) (rows : List TaskRow),
      q.storage = some rows →
      (∀ r ∈ rows, r.status = "pending" ∧ r.created_at = classLoad) →
      ∃ rows2, (runEnqueues classLoad q ops).storage = some rows2 ∧
        ∀ r ∈ rows2, r.status = "pending" ∧ r.created_at = classLoad := by
  induction ops with
  | nil =>
      intro q rows hst hrows
      exact ⟨rows, hst, hrows⟩
  | cons op ops ih =>
      intro q rows hst hrows
      simp only [runEnqueues, TaskQueue.add_task, hst]
      exact ih _ _ rfl (save_task_rows_invariant classLoad rows _ hrows rfl rfl)

/-- Claim C2: after any sequence of `add_task` calls against a queue whose
`storage` attribute is initialized, `get_pending_tasks` returns exactly the
records with status PENDING (here: all accumulated rows, since every row
is written with status `"pending"`), ordered by `priority` descending and,
among equal priorities, by `created_at` ascending.  The tie-break holds
because every record minted by `add_task` carries the one class-constant
`created_at` value; the SQL itself orders only by `priority`. -/
theorem C2_pending_order (classLoad : Nat) (ops : List EnqOp) :
    ∃ rows,
      (runEnqueues classLoad (TaskQueue.init.attachStorage []) ops).storage =
        some rows ∧
      List.Perm (Storage.get_pending_tasks rows)
        (rows.filter (fun r => r.status == "pending")) ∧
      List.Perm (Storage.get_pending_tasks rows) rows ∧
      List.Pairwise
        (fun a b => b.priority < a.priority ∨
          (a.priority = b.priority ∧ a.created_at ≤ b.created_at))
        (Storage.get_pending_tasks rows) := by
  obtain ⟨rows, hst, hrows⟩ :=
    runEnqueues_rows_invariant classLoad ops (TaskQueue.init.attachStorage [])
      [] rfl (by intro r hr; cases hr)
  refine ⟨rows, hst, ?_, ?_, ?_⟩
  · exact List.perm_insertionSort prioGe _
  · have hfil : rows.filter (fun r => r.status == "pending") = rows := by
      apply List.filter_eq_self.mpr
      intro r hr
      have := (hrows r hr).1
      simp [this]
    unfold Storage.get_pending_tasks
    rw [hfil]
    exact List.perm_insertionSort prioGe rows
  · have hsorted : List.Pairwise prioGe (Storage.get_pending_tasks rows) :=
      List.sorted_insertionSort prioGe _
    apply hsorted.imp_of_mem
    intro a b ha hb hge
    have hamem : a ∈ rows := by
      have : a ∈ rows.filter (fun r => r.status == "pending") := by
        simpa [Storage.get_pending_tasks] using ha
      exact (List.mem_filter.mp this).1
    have hbmem : b ∈ rows := by
      have : b ∈ rows.filter (fun r => r.status == "pending") := by
        simpa [Storage.get_pending_tasks] using hb
      exact (List.mem_filter.mp this).1
    rcases lt_or_eq_of_le hge with hlt | heq
    · exact Or.inl hlt
    · refine Or.inr ⟨heq.symm, ?_⟩
      rw [(hrows a hamem).2, (hrows b hbmem).2]

/-- `process_task` always ends in a terminal status. -/
theorem process_task_status (env : Env) (t : Task) :
    (process_task env t).1.status = .completed ∨
    (process_task env t).1.status = .failed := by
  unfold process_task
  cases runnerOutcome env t with
  | ok ro => exact Or.inl rfl
  | error e => exact Or.inr rfl

/-- `process_task` is determined by the task and its runner outcome. -/
theorem process_task_congr (env1 env2 : Env) (t : Task)
    (h : runnerOutcome env1 t = runnerOutcome env2 t) :
    process_task env1 t = process_task env2 t := by
  unfold process_task
  rw [h]

/-- A processed task is never PENDING. -/
theorem process_task_not_pending (env : Env) (t : Task) :
    ((process_task env t).1.status == TStatus.pending) = false := by
  rcases process_task_status env t with h | h <;> rw [h] <;> rfl

/-- Dispatching does not change the final per-task outcome: `finishTask`
absorbs it. -/
theorem dispatch_map_finishTask (env : Env) :
    ∀ (ts : List Task) (b : Nat),
      (dispatch env b ts).1.map (finishTask env) = ts.map (finishTask env) := by
  intro ts
  induction ts with
  | nil => intro b; cases b <;> rfl
  | cons t rest ih =>
      intro b
      cases b with
      | zero => rfl
      | succ b =>
          by_cases hp : t.status = .pending
          · simp only [dispatch, if_pos hp, List.map_cons, ih]
            have h1 : finishTask env (process_task env t).1 =
                (process_task env t).1 := by
              unfold finishTask
              rcases process_task_status env t with h | h <;>
                rw [h] <;> simp
            have h2 : finishTask env t = (process_task env t).1 := by
              unfold finishTask
              rw [if_pos hp]
            rw [h1, h2]
          · simp only [dispatch, if_neg hp, List.map_cons, ih]

/-- Each dispatch round settles `min budget countPending` records. -/
theorem countPending_dispatch (env : Env) :
    ∀ (ts : List Task) (b : Nat),
      countPending (dispatch env b ts).1 =
        countPending ts - min b (countPending ts) := by
  intro ts
  induction ts with
  | nil => intro b; cases b <;> simp [dispatch, countPending]
  | cons t rest ih =>
      intro b
      cases b with
      | zero => simp [dispatch, countPending]
      | succ b =>
          by_cases hp : t.status = .pending
          · have hcons : countPending (t :: rest) = countPending rest + 1 := by
              simp [countPending, List.countP_cons, hp]
            simp only [dispatch, if_pos hp]
            have hhead : countPending ((process_task env t).1 :: (dispatch env b rest).1) =
                countPending (dispatch env b rest).1 := by
              simp [countPending, List.countP_cons, process_task_not_pending]
            rw [hhead, ih b, hcons]
            omega
          · have hcons : countPending (t :: rest) = countPending rest := by
              have : (t.status == TStatus.pending) = false := by
                simp [hp]
              simp [countPending, List.countP_cons, this]
            simp only [dispatch, if_neg hp]
            have hhead : countPending (t :: (dispatch env (b + 1) rest).1) =
                countPending (dispatch env (b + 1) rest).1 := by
              have : (t.status == TStatus.pending) = false := by
                simp [hp]
              simp [countPending, List.countP_cons, this]
            rw [hhead, ih (b + 1), hcons]

/-- With no PENDING record every task is already final. -/
theorem map_finishTask_of_no_pending (env : Env) (ts : List Task)
    (h : countPending ts = 0) : ts.map (finishTask env) = ts := by
  have hall := List.countP_eq_zero.mp h
  have : ∀ t ∈ ts, finishTask env t = t := by
    intro t ht
    have := hall t ht
    unfold finishTask
    rw [if_neg (by simpa using this)]
  calc ts.map (finishTask env) = ts.map id := List.map_congr_left this
    _ = ts := List.map_id ts

/-- The run loop processes every PENDING record exactly once: with enough
fuel the final collection is the pointwise `finishTask` image. -/
theorem runFuel_fst (env : Env) :
    ∀ (fuel : Nat) (ts : List Task), countPending ts ≤ fuel →
      (runFuel env fuel ts).1 = ts.map (finishTask env) := by
  intro fuel
  induction fuel with
  | zero =>
      intro ts h
      have h0 : countPending ts = 0 := Nat.le_zero.mp h
      simp [runFuel, map_finishTask_of_no_pending env ts h0]
  | succ fuel ih =>
      intro ts h
      by_cases h0 : countPending ts = 0
      · simp [runFuel, h0, map_finishTask_of_no_pending env ts h0]
      · simp only [runFuel, if_neg h0]
        have hcd := countPending_dispatch env ts 3
        have hle : countPending (dispatch env 3 ts).1 ≤ fuel := by
          rw [hcd]; omega
        rw [ih _ hle, dispatch_map_finishTask]

/-- The list of records after `run` is the pointwise outcome image. -/
theorem run_fst (env : Env) (ts : List Task) :
    (run env ts).1 = ts.map (finishTask env) :=
  runFuel_fst env (countPending ts) ts (le_refl _)

/-- Claim C3: with C = 3 and priorities `[1, 5, 0, 5, 3]` enqueued in that
order, the first batch `run()` selects is the first three PENDING tasks in
insertion order — priorities `[1, 5, 0]` — not the two priority-5 jobs and
the priority-3 job: the selection `pending_tasks[:3]` never consults
`priority`. The batch contains one priority-5 job, not two, and the second
batch is `[5, 3]`, not `[1, 0]`. -/
theorem C3_first_batch_ignores_priority :
    (selectBatch scenarioQueue.tasks).map (fun t => t.priority) = [1, 5, 0] ∧
    ((selectBatch scenarioQueue.tasks).map (fun t => t.priority)).count 5 = 1 ∧
    (selectBatch (dispatch okEnv 3 scenarioQueue.tasks).1).map
      (fun t => t.priority) = [5, 3] :=
  ⟨rfl, rfl, rfl⟩

/-- Claim C4, counterexample: a single job whose Job Runner raises reaches
the terminal status FAILED while `run()` performs no Durable Store write
and no Result Sink write at all; and a job that COMPLETEs gets a sink
write but still no store write. The claim that every terminal transition
attempts both writes is false on the code. -/
theorem C4_counterexample :
    ((run failEnv [sampleTask 0 0]).1.map (fun t => t.status) =
      [TStatus.failed]) ∧
    (run failEnv [sampleTask 0 0]).2 = [] ∧
    ((run okEnv [sampleTask 0 0]).1.map (fun t => t.status) =
      [TStatus.completed]) ∧
    ((run okEnv [sampleTask 0 0]).2.countP (fun e => e.isStore) = 0) :=
  ⟨rfl, rfl, rfl, rfl⟩

/-- No effect produced by `process_task` is a Durable Store write. -/
theorem process_task_no_store (env : Env) (t : Task) :
    ∀ e ∈ (process_task env t).2, e.isStore = false := by
  unfold process_task
  cases runnerOutcome env t with
  | ok ro =>
      intro e he
      simp only [List.mem_singleton] at he
      rw [he]
      rfl
  | error e2 =>
      intro e he
      cases he

/-- No dispatch round produces a Durable Store write. -/
theorem dispatch_no_store (env : Env) :
    ∀ (ts : List Task) (b : Nat), ∀ e ∈ (dispatch env b ts).2,
      e.isStore = false := by
  intro ts
  induction ts with
  | nil => intro b e he; cases b <;> cases he
  | cons t rest ih =>
      intro b e he
      cases b with
      | zero => cases he
      | succ b =>
          by_cases hp : t.status = .pending
          · simp only [dispatch, if_pos hp] at he
            rcases List.mem_append.mp he with h1 | h2
            · exact process_task_no_store env t e h1
            · exact ih b e h2
          · simp only [dispatch, if_neg hp] at he
            exact ih (b + 1) e he

/-- No iteration of the run loop produces a Durable Store write. -/
theorem runFuel_no_store (env : Env) :
    ∀ (fuel : Nat) (ts : List Task), ∀ e ∈ (runFuel env fuel ts).2,
      e.isStore = false := by
  intro fuel
  induction fuel with
  | zero => intro ts e he; cases he
  | succ fuel ih =>
      intro ts e he
      by_cases h0 : countPending ts = 0
      · simp only [runFuel, if_pos h0] at he
        cases he
      · simp only [runFuel, if_neg h0] at he
        rcases List.mem_append.mp he with h1 | h2
        · exact dispatch_no_store env ts 3 e h1
        · exact ih _ e h2

/-- Claim C4, amended: during `run()`, a transition to COMPLETED attempts
exactly one Result Sink write (the `_save_result` artifact) and no Durable
Store write; a transition to FAILED attempts neither — the failure outcome
lives only in the in-memory record (and the log). No Durable Store write
ever happens during `run()`. -/
theorem C4_amended_terminal_writes (env : Env) (ts : List Task) (t : Task) :
    (∀ e ∈ (run env ts).2, e.isStore = false) ∧
    ((process_task env t).1.status = .completed →
      (process_task env t).2 = [save_result (process_task env t).1]) ∧
    ((process_task env t).1.status = .failed →
      (process_task env t).2 = []) := by
  refine ⟨runFuel_no_store env _ ts, ?_, ?_⟩
  · intro h
    unfold process_task at h ⊢
    cases hro : runnerOutcome env t <;> rw [hro] at h <;> simp_all
  · intro h
    unfold process_task at h ⊢
    cases hro : runnerOutcome env t <;> rw [hro] at h <;> simp_all

/-- Witness for the amended C4: both hypotheses are realizable — the job
on `f0.py` COMPLETEs under `okEnv` (one sink write, no store write) and
FAILs under `failEnv` (no write at all). -/
theorem C4_amended_witness :
    ((process_task okEnv (sampleTask 0 0)).1.status = .completed ∧
      (process_task okEnv (sampleTask 0 0)).2 =
        [save_result (process_task okEnv (sampleTask 0 0)).1]) ∧
    ((process_task failEnv (sampleTask 0 0)).1.status = .failed ∧
      (process_task failEnv (sampleTask 0 0)).2 = []) :=
  ⟨⟨rfl, (C4_amended_terminal_writes okEnv [] (sampleTask 0 0)).2.1 rfl⟩,
   ⟨rfl, (C4_amended_terminal_writes failEnv [] (sampleTask 0 0)).2.2 rfl⟩⟩

/-- Claim C7: the final record of a job B depends only on B's own runner
outcome — two collaborator environments that agree on B's runner outcome
(one of which may make any other job of the same batch raise) yield the
same final record for B; and under either environment the loop is never
aborted: every PENDING record still reaches a terminal state. -/
theorem C7_failure_isolation (env1 env2 : Env) (ts : List Task) (j : Nat)
    (hagree : runnerOutcome env1 (ts.getD j default) =
      runnerOutcome env2 (ts.getD j default)) :
    (run env1 ts).1.getD j default = (run env2 ts).1.getD j default ∧
    (∀ i : Nat, i < ts.length → (ts.getD i default).status = .pending →
      ((run env1 ts).1.getD i default).status.isTerminal = true) := by
  have hfin : ∀ (env : Env) (i : Nat),
      (run env ts).1.getD i default =
        (ts.getD i default |> fun t =>
          if i < ts.length then finishTask env t else default) := by
    intro env i
    rw [run_fst]
    by_cases hi : i < ts.length
    · rw [List.getD_eq_getElem?_getD, List.getD_eq_getElem?_getD,
        List.getElem?_map]
      have : ts[i]? = some ts[i] := List.getElem?_eq_getElem hi
      simp [this, hi, List.getD_eq_getElem?_getD]
    · have h1 : ts.length ≤ i := Nat.le_of_not_lt hi
      rw [List.getD_eq_getElem?_getD, List.getElem?_eq_none (by simpa using h1)]
      simp [hi]
  constructor
  · rw [hfin env1 j, hfin env2 j]
    by_cases hj : j < ts.length
    · simp only [hj, if_pos]
      unfold finishTask
      by_cases hp : (ts.getD j default).status = .pending
      · rw [if_pos hp, if_pos hp, process_task_congr env1 env2 _ hagree]
      · rw [if_neg hp, if_neg hp]
    · simp [hj]
  · intro i hi hp
    rw [hfin env1 i]
    simp only [hi, if_pos]
    unfold finishTask
    rw [if_pos hp]
    rcases process_task_status env1 (ts.getD i default) with h | h <;>
      rw [h] <;> rfl

/-- Witness for C7: two jobs on `f0.py` and `f1.py`; under `envFailA` job
A (`f0.py`) raises and FAILs while under `okEnv` it succeeds, yet job B
(`f1.py`) has the same runner outcome in both environments, ends with the
identical COMPLETED record in both runs, and both jobs reach terminal
states — the loop is not aborted. -/
theorem C7_witness :
    runnerOutcome envFailA ([sampleTask 0 0, sampleTask 0 1].getD 1 default) =
      runnerOutcome okEnv ([sampleTask 0 0, sampleTask 0 1].getD 1 default) ∧
    ((run envFailA [sampleTask 0 0, sampleTask 0 1]).1.getD 0 default).status =
      .failed ∧
    ((run okEnv [sampleTask 0 0, sampleTask 0 1]).1.getD 0 default).status =
      .completed ∧
    (run envFailA [sampleTask 0 0, sampleTask 0 1]).1.getD 1 default =
      (run okEnv [sampleTask 0 0, sampleTask 0 1]).1.getD 1 default ∧
    (([sampleTask 0 0, sampleTask 0 1].getD 1 default).status = .pending →
      ((run envFailA [sampleTask 0 0, sampleTask 0 1]).1.getD 1
        default).status.isTerminal = true) :=
  ⟨rfl, by decide, by decide,
    (C7_failure_isolation envFailA okEnv [sampleTask 0 0, sampleTask 0 1] 1
      rfl).1,
    fun _ => (C7_failure_isolation envFailA okEnv
      [sampleTask 0 0, sampleTask 0 1] 1 rfl).2 1 (by decide) (by decide)⟩

/-- Updating position `i` changes only position `i` (when in range). -/
theorem statusGetD_set (l : List TStatus) (i j : Nat) (st : TStatus) :
    (l.set i st).getD j .pending =
      if i = j ∧ i < l.length then st else l.getD j .pending := by
  rw [List.getD_eq_getElem?_getD, List.getD_eq_getElem?_getD,
    List.getElem?_set]
  by_cases hij : i = j
  · subst hij
    by_cases hlt : i < l.length
    · simp [hlt]
    · have hle : l.length ≤ i := Nat.le_of_not_lt hlt
      simp [hlt, List.getElem?_eq_none hle]
  · simp [hij]

/-- Appending a PENDING record does not change existing positions. -/
theorem statusGetD_append (l : List TStatus) (x : TStatus) (j : Nat) :
    (l ++ [x]).getD j .pending =
      if j < l.length then l.getD j .pending
      else if j = l.length then x else .pending := by
  rw [List.getD_eq_getElem?_getD]
  by_cases h1 : j < l.length
  · rw [List.getElem?_append_left h1, if_pos h1, List.getD_eq_getElem?_getD]
  · rw [if_neg h1]
    have hle : l.length ≤ j := Nat.le_of_not_lt h1
    rw [List.getElem?_append_right hle]
    by_cases h2 : j = l.length
    · subst h2
      simp
    · have hge : 1 ≤ j - l.length := by omega
      rw [List.getElem?_eq_none (by simpa using hge)]
      simp [h2]

/-- Every reachable scheduler state satisfies the invariant. -/
theorem reach_inv (s : RState) (h : Reach s) : Inv s := by
  induction h with
  | init stats hst =>
      refine ⟨?_, ?_, ?_⟩
      · intro _ i hri
        by_cases hi : i < stats.length
        · have hmem : stats.getD i .pending ∈ stats := by
            rw [List.getD_eq_getElem?_getD, List.getElem?_eq_getElem hi]
            exact List.getElem_mem hi
          exact hst _ hmem hri
        · have hle : stats.length ≤ i := Nat.le_of_not_lt hi
          dsimp only [statusAt] at hri
          rw [List.getD_eq_getElem?_getD, List.getElem?_eq_none hle] at hri
          exact TStatus.noConfusion hri
      · intro b hb
        exact Option.noConfusion hb
      · intro i hi
        exact absurd hi (List.not_mem_nil i)
  | step hreach hstep ih =>
      rename_i s0 s2
      obtain ⟨P1, P2, P3⟩ := ih
      cases hstep with
      | select hin hne =>
          refine ⟨?_, ?_, ?_⟩
          · intro habs
            exact Option.noConfusion habs
          · intro b hb
            dsimp only at hb
            obtain rfl : (pendingIdxs s0.stats).take 3 = b := Option.some.inj hb
            refine ⟨?_, ?_, ?_⟩
            · intro i hri
              dsimp only [statusAt] at hri
              exact absurd hri (P1 hin i)
            · calc ((pendingIdxs s0.stats).take 3).length
                  = min 3 (pendingIdxs s0.stats).length := List.length_take ..
                _ ≤ 3 := min_le_left ..
            · exact (List.take_sublist 3 _).nodup
                ((List.nodup_range _).filter _)
          · intro j hj
            dsimp only at hj
            dsimp only [statusAt]
            exact P3 j hj
      | start b i hin hi hp =>
          refine ⟨?_, ?_, ?_⟩
          · intro habs
            dsimp only at habs
            rw [hin] at habs
            exact Option.noConfusion habs
          · intro b2 hb2
            dsimp only at hb2
            rw [hin] at hb2
            obtain rfl : b = b2 := Option.some.inj hb2
            refine ⟨?_, (P2 b hin).2.1, (P2 b hin).2.2⟩
            · intro j hrj
              dsimp only [statusAt] at hrj
              rw [statusGetD_set] at hrj
              by_cases hc : i = j ∧ i < s0.stats.length
              · exact hc.1 ▸ hi
              · rw [if_neg hc] at hrj
                exact (P2 b hin).1 j hrj
          · intro j hj
            dsimp only at hj
            have hPj := P3 j hj
            dsimp only [statusAt]
            rw [statusGetD_set]
            by_cases hc : i = j ∧ i < s0.stats.length
            · exfalso
              rw [← hc.1] at hPj
              dsimp only [statusAt] at hPj hp
              rw [hp] at hPj
              exact Bool.noConfusion hPj
            · rw [if_neg hc]
              exact hPj
      | finish b i st hin hi hr hterm =>
          refine ⟨?_, ?_, ?_⟩
          · intro habs
            dsimp only at habs
            rw [hin] at habs
            exact Option.noConfusion habs
          · intro b2 hb2
            dsimp only at hb2
            rw [hin] at hb2
            obtain rfl : b = b2 := Option.some.inj hb2
            refine ⟨?_, (P2 b hin).2.1, (P2 b hin).2.2⟩
            · intro j hrj
              dsimp only [statusAt] at hrj
              rw [statusGetD_set] at hrj
              by_cases hc : i = j ∧ i < s0.stats.length
              · rw [if_pos hc] at hrj
                rw [hrj] at hterm
                exact Bool.noConfusion hterm
              · rw [if_neg hc] at hrj
                exact (P2 b hin).1 j hrj
          · intro j hj
            dsimp only at hj
            have hPj := P3 j hj
            dsimp only [statusAt]
            rw [statusGetD_set]
            by_cases hc : i = j ∧ i < s0.stats.length
            · rw [if_pos hc]
              exact hterm
            · rw [if_neg hc]
              exact hPj
      | join b hin hall =>
          refine ⟨?_, ?_, ?_⟩
          · intro _ i hri
            dsimp only [statusAt] at hri
            have hib : i ∈ b := (P2 b hin).1 i hri
            have hti := hall i hib
            dsimp only [statusAt] at hti
            rw [hri] at hti
            exact Bool.noConfusion hti
          · intro b2 hb2
            exact Option.noConfusion hb2
          · intro j hj
            dsimp only at hj
            dsimp only [statusAt]
            rcases List.mem_append.mp hj with hjd | hjb
            · exact P3 j hjd
            · exact hall j hjb
      | enqueue =>
          refine ⟨?_, ?_, ?_⟩
          · intro hnone j hrj
            dsimp only at hnone
            dsimp only [statusAt] at hrj
            rw [statusGetD_append] at hrj
            by_cases h1 : j < s0.stats.length
            · rw [if_pos h1] at hrj
              exact P1 hnone j hrj
            · rw [if_neg h1] at hrj
              by_cases h2 : j = s0.stats.length
              · rw [if_pos h2] at hrj
                exact TStatus.noConfusion hrj
              · rw [if_neg h2] at hrj
                exact TStatus.noConfusion hrj
          · intro b hb
            dsimp only at hb
            refine ⟨?_, (P2 b hb).2.1, (P2 b hb).2.2⟩
            intro j hrj
            dsimp only [statusAt] at hrj
            rw [statusGetD_append] at hrj
            by_cases h1 : j < s0.stats.length
            · rw [if_pos h1] at hrj
              exact (P2 b hb).1 j hrj
            · rw [if_neg h1] at hrj
              by_cases h2 : j = s0.stats.length
              · rw [if_pos h2] at hrj
                exact TStatus.noConfusion hrj
              · rw [if_neg h2] at hrj
                exact TStatus.noConfusion hrj
          · intro j hj
            dsimp only at hj
            have hPj := P3 j hj
            dsimp only [statusAt]
            rw [statusGetD_append]
            by_cases h1 : j < s0.stats.length
            · rw [if_pos h1]
              exact hPj
            · exfalso
              have hle : s0.stats.length ≤ j := Nat.le_of_not_lt h1
              dsimp only [statusAt] at hPj
              rw [List.getD_eq_getElem?_getD,
                List.getElem?_eq_none hle] at hPj
              exact Bool.noConfusion hPj

/-- Counting by predicate equals counting the matching positions. -/
theorem countP_eq_length_filter_range (p : TStatus → Bool) (l : List TStatus) :
    l.countP p =
      ((List.range l.length).filter (fun i => p (l.getD i .pending))).length := by
  induction l with
  | nil => simp
  | cons a l ih =>
      rw [List.countP_cons, List.length_cons, List.range_succ_eq_map,
        List.filter_cons]
      have heq : ((fun i => p ((a :: l).getD i TStatus.pending)) ∘ Nat.succ) =
          (fun i => p (l.getD i TStatus.pending)) := by
        funext i
        simp [Function.comp]
      rw [List.filter_map, heq]
      simp only [List.getD_cons_zero]
      by_cases hpa : p a
      · simp [hpa, ih]
      · simp [hpa, ih]

/-- Claim C5: in every state reachable during `run()` the number of
records with status RUNNING is at most the concurrency limit C = 3:
every RUNNING record belongs to the sole in-flight batch, which has at
most three distinct members (`pending_tasks[:3]`). -/
theorem C5_running_at_most_three (s : RState) (h : Reach s) :
    countRunning s.stats ≤ 3 := by
  obtain ⟨P1, P2, P3⟩ := reach_inv s h
  rw [countRunning, countP_eq_length_filter_range]
  cases hin : s.inflight with
  | none =>
      have hnil : (List.range s.stats.length).filter
          (fun i => s.stats.getD i .pending == .running) = [] := by
        rw [List.filter_eq_nil_iff]
        intro i _ habs
        exact P1 hin i (by simpa [statusAt] using habs)
      rw [hnil]
      exact Nat.le_of_lt_succ (by simp)
  | some b =>
      have hsub : (List.range s.stats.length).filter
          (fun i => s.stats.getD i .pending == .running) ⊆ b := by
        intro j hj
        have hpred := (List.mem_filter.mp hj).2
        exact (P2 b hin).1 j (by simpa [statusAt] using hpred)
      have hnd : ((List.range s.stats.length).filter
          (fun i => s.stats.getD i .pending == .running)).Nodup :=
        (List.nodup_range _).filter _
      exact le_trans (hnd.subperm hsub).length_le (P2 b hin).2.1

/-- Witness for C5: the bound holds at a concrete reachable state that
actually has three RUNNING records. -/
theorem C5_witness : Reach wFull ∧ countRunning wFull.stats ≤ 3 := by
  have h0 :
      Reach { stats := [.pending, .pending, .pending, .pending], inflight := none, done := [] } :=
    Reach.init [.pending, .pending, .pending, .pending] (by decide)
  have h1 :
      Reach { stats := [.pending, .pending, .pending, .pending], inflight := some [0, 1, 2], done := [] } :=
    Reach.step h0 (RStep.select _ rfl (by decide))
  have h2 :
      Reach { stats := [.running, .pending, .pending, .pending], inflight := some [0, 1, 2], done := [] } :=
    Reach.step h1 (RStep.start _ [0, 1, 2] 0 rfl (by decide) (by decide))
  have h3 :
      Reach { stats := [.running, .running, .pending, .pending], inflight := some [0, 1, 2], done := [] } :=
    Reach.step h2 (RStep.start _ [0, 1, 2] 1 rfl (by decide) (by decide))
  have h4 : Reach wFull :=
    Reach.step h3 (RStep.start _ [0, 1, 2] 2 rfl (by decide) (by decide))
  exact ⟨h4, C5_running_at_most_three wFull h4⟩

/-- Claim C6: a new batch can be selected only at a state with no batch
in flight (the `asyncio.gather` barrier has returned); at any such
selection step every member of every previously dispatched batch is
terminal, no record at all is RUNNING, and the new batch is drawn from
the PENDING records only — there is no cross-batch concurrency. -/
theorem C6_no_cross_batch_concurrency (s s2 : RState) (hs : Reach s)
    (hstep : RStep s s2) (hnone : s.inflight = none) (b2 : List Nat)
    (hb2 : s2.inflight = some b2) :
    (∀ i ∈ s.done, (statusAt s i).isTerminal = true) ∧
    (∀ i, statusAt s i ≠ .running) ∧
    b2 = (pendingIdxs s.stats).take 3 := by
  obtain ⟨P1, P2, P3⟩ := reach_inv s hs
  refine ⟨P3, P1 hnone, ?_⟩
  cases hstep with
  | select hin hne =>
      dsimp only at hb2
      exact (Option.some.inj hb2).symm
  | start b i hin hi hp =>
      rw [hin] at hnone
      exact Option.noConfusion hnone
  | finish b i st hin hi hr hterm =>
      rw [hin] at hnone
      exact Option.noConfusion hnone
  | join b hin hall =>
      rw [hin] at hnone
      exact Option.noConfusion hnone
  | enqueue =>
      dsimp only at hb2
      rw [hnone] at hb2
      exact Option.noConfusion hb2

/-- Witness for C6: a concrete trace reaching a second batch selection —
at the selection point the settled batch member is terminal, nothing is
RUNNING, and the new batch is the PENDING record. -/
theorem C6_witness :
    Reach vBarrier ∧ RStep vBarrier vSecond ∧
    (∀ i ∈ vBarrier.done, (statusAt vBarrier i).isTerminal = true) ∧
    (∀ i, statusAt vBarrier i ≠ .running) ∧
    [1] = (pendingIdxs vBarrier.stats).take 3 := by
  have h0 : Reach { stats := [.pending], inflight := none, done := [] } :=
    Reach.init [.pending] (by decide)
  have h1 : Reach { stats := [.pending], inflight := some [0], done := [] } :=
    Reach.step h0 (RStep.select _ rfl (by decide))
  have h2 : Reach { stats := [.running], inflight := some [0], done := [] } :=
    Reach.step h1 (RStep.start _ [0] 0 rfl (by decide) (by decide))
  have h3 : Reach { stats := [.completed], inflight := some [0], done := [] } :=
    Reach.step h2 (RStep.finish _ [0] 0 .completed rfl (by decide) (by decide)
      (by decide))
  have h4 : Reach { stats := [.completed], inflight := none, done := [0] } :=
    Reach.step h3 (RStep.join _ [0] rfl (by decide))
  have h5 : Reach vBarrier :=
    Reach.step h4 (RStep.enqueue _)
  have hstep : RStep vBarrier vSecond := RStep.select _ rfl (by decide)
  obtain ⟨hA, hB, hC⟩ :=
    C6_no_cross_batch_concurrency vBarrier vSecond h5 hstep rfl [1] rfl
  exact ⟨h5, hstep, hA, hB, hC⟩

end Clari
